import Mathlib

/-!
Shallow embedding of the slimcontext compaction engine: the canonical
message shape, the token-budget utilities (`src/strategies/common.ts`),
the token-threshold trimming strategy (`src/strategies/trim.ts`) and the
summarization strategy (`src/strategies/summarize.ts`), together with
theorems settling the specification claims about them.
-/

namespace Slimcontext

/-- The five canonical roles of `SlimContextMessage.role`
(`'system' | 'user' | 'human' | 'assistant' | 'tool'`). -/
inductive Role where
  | system
  | user
  | human
  | assistant
  | tool
deriving DecidableEq, Repr

/-- Canonical message: `{ role, content }`.  The optional opaque
`metadata` bag is never inspected by the core and is omitted. -/
structure SlimContextMessage where
  role : Role
  content : String
deriving DecidableEq, Repr

/-- Result shape of the text-generation capability: `{ content: string }`. -/
structure SlimContextModelResponse where
  content : String
deriving DecidableEq, Repr

/-- A token estimator maps one message to an estimated token count
(`TokenEstimator`). -/
def TokenEstimator : Type := SlimContextMessage → Nat

/-- Caller-supplied token-budget configuration; every field optional
(`TokenBudgetConfig`).  `minRecentMessages` is an `Int` because the
source clamps negative values with `Math.max(0, ...)`. -/
structure TokenBudgetConfig where
  maxModelTokens : Option Nat
  thresholdPercent : Option ℚ
  estimateTokens : Option TokenEstimator
  minRecentMessages : Option Int

/-- `DEFAULT_MAX_MODEL_TOKENS = 8192`. -/
def DEFAULT_MAX_MODEL_TOKENS : Nat := 8192

/-- `DEFAULT_THRESHOLD_PERCENT = 0.7`. -/
def DEFAULT_THRESHOLD_PERCENT : ℚ := 7 / 10

/-- `DEFAULT_MIN_RECENT_MESSAGES = 10` (fallback when a strategy supplies
no `minRecentDefault`). -/
def DEFAULT_MIN_RECENT_MESSAGES : Nat := 10

/-- `DEFAULT_ESTIMATOR_TOKEN_BIAS = 2`. -/
def DEFAULT_ESTIMATOR_TOKEN_BIAS : Nat := 2

/-- `DEFAULT_ESTIMATOR`: `Math.ceil(m.content.length / 4) + 2`; ceiling
division on naturals is `(n + 3) / 4`. -/
def DEFAULT_ESTIMATOR : TokenEstimator := fun m =>
  (m.content.length + 3) / 4 + DEFAULT_ESTIMATOR_TOKEN_BIAS

/-- Fully-resolved budget configuration (`NormalizedBudgetConfig`). -/
structure NormalizedBudgetConfig where
  maxModelTokens : Nat
  thresholdPercent : ℚ
  estimateTokens : TokenEstimator
  minRecentMessages : Nat

/-- `normalizeBudgetConfig(config, options?)`: fill unset fields with the
defaults; the strategy-specific `minRecentDefault` overrides
`DEFAULT_MIN_RECENT_MESSAGES`; `minRecentMessages` is clamped with
`Math.max(0, ...)`. -/
def normalizeBudgetConfig (config : TokenBudgetConfig)
    (minRecentDefault : Option Int) : NormalizedBudgetConfig :=
  let d : Int := minRecentDefault.getD (Int.ofNat DEFAULT_MIN_RECENT_MESSAGES)
  { maxModelTokens := config.maxModelTokens.getD DEFAULT_MAX_MODEL_TOKENS
    thresholdPercent := config.thresholdPercent.getD DEFAULT_THRESHOLD_PERCENT
    estimateTokens := config.estimateTokens.getD DEFAULT_ESTIMATOR
    minRecentMessages := (max 0 (config.minRecentMessages.getD d)).toNat }

/-- `computeThresholdTokens(maxModelTokens, thresholdPercent) =
Math.floor(maxModelTokens * thresholdPercent)`. -/
def computeThresholdTokens (maxModelTokens : Nat) (thresholdPercent : ℚ) : Int :=
  Int.floor ((maxModelTokens : ℚ) * thresholdPercent)

/-- `estimateTotalTokens(messages, estimateTokens)`: sum of the
per-message estimates (0 on the empty list). -/
def estimateTotalTokens (messages : List SlimContextMessage)
    (estimateTokens : TokenEstimator) : Nat :=
  (messages.map estimateTokens).sum

/-- `shouldAllowCompression(messages)`: false on the empty list, else
true iff the final message's role is `user` or `human`. -/
def shouldAllowCompression (messages : List SlimContextMessage) : Bool :=
  match messages.getLast? with
  | none => false
  | some lastMessage =>
      lastMessage.role == Role.user || lastMessage.role == Role.human

/-- An entry of the trim working state: a message, its token estimate,
and its `keepMask` flag. -/
structure TrimEntry where
  msg : SlimContextMessage
  cnt : Nat
  keep : Bool
deriving DecidableEq, Repr

/-- First trim pass (`trim.ts` lines 68-77): walk messages from oldest
to newest while `total > thresholdTokens`; skip system messages and
messages at index `>= preserveFromIndex`; otherwise clear the keep flag
and subtract the message's estimate from the running total.  `i` is the
index of the first entry of `es`. -/
def pass1 (th : Int) (preserveFrom : Nat) :
    Nat → Int → List (SlimContextMessage × Nat) → List TrimEntry × Int
  | _, total, [] => ([], total)
  | i, total, (m, c) :: rest =>
    if total ≤ th then
      ((⟨m, c, true⟩ :: rest.map fun p => ⟨p.1, p.2, true⟩), total)
    else if preserveFrom ≤ i ∨ m.role = Role.system then
      let r := pass1 th preserveFrom (i + 1) total rest
      (⟨m, c, true⟩ :: r.1, r.2)
    else
      let r := pass1 th preserveFrom (i + 1) (total - (c : Int)) rest
      (⟨m, c, false⟩ :: r.1, r.2)

/-- Second trim pass (`trim.ts` lines 79-86): walk indices
`< preserveFromIndex` while still over threshold, dropping any remaining
kept non-system message. -/
def pass2 (th : Int) (preserveFrom : Nat) :
    Nat → Int → List TrimEntry → List TrimEntry × Int
  | _, total, [] => ([], total)
  | i, total, e :: rest =>
    if preserveFrom ≤ i ∨ total ≤ th then (e :: rest, total)
    else if e.keep = false then
      let r := pass2 th preserveFrom (i + 1) total rest
      (e :: r.1, r.2)
    else if e.msg.role = Role.system then
      let r := pass2 th preserveFrom (i + 1) total rest
      (e :: r.1, r.2)
    else
      let r := pass2 th preserveFrom (i + 1) (total - (e.cnt : Int)) rest
      (⟨e.msg, e.cnt, false⟩ :: r.1, r.2)

/-- `TrimCompressor.compress(messages)` over a normalized configuration:
gate, threshold test, the two dropping passes, then collect the
surviving messages in original order. -/
def trimCompress (cfg : NormalizedBudgetConfig)
    (messages : List SlimContextMessage) : List SlimContextMessage :=
  if ¬ shouldAllowCompression messages then messages
  else
    let th := computeThresholdTokens cfg.maxModelTokens cfg.thresholdPercent
    let entries := messages.map fun m => (m, cfg.estimateTokens m)
    let tokenCounts : List Nat := entries.map fun p => p.2
    let totalNat : Nat := tokenCounts.sum
    let total : Int := (totalNat : Int)
    if total ≤ th then messages
    else
      let preserveFrom := messages.length - cfg.minRecentMessages
      let after1 := pass1 th preserveFrom 0 total entries
      let after2 := pass2 th preserveFrom 0 after1.2 after1.1
      (after2.1.filter fun e => e.keep).map fun e => e.msg

/-- Sum of the token estimates of the entries still flagged as kept. -/
def keptSum (es : List TrimEntry) : Nat :=
  ((es.filter fun e => e.keep).map fun e => e.cnt).sum

/-- The `TrimCompressor` constructor normalizes its budget with
`minRecentDefault: 2`. -/
def TrimCompressor.normalize (config : TokenBudgetConfig) :
    NormalizedBudgetConfig :=
  normalizeBudgetConfig config (some 2)

/-- `new TrimCompressor(config).compress(messages)`. -/
def TrimCompressor.compress (config : TokenBudgetConfig)
    (messages : List SlimContextMessage) : List SlimContextMessage :=
  trimCompress (TrimCompressor.normalize config) messages

/-- String form of a role, as used when rendering the transcript
(`msg.role` interpolation). -/
def Role.toStr : Role → String
  | Role.system => "system"
  | Role.user => "user"
  | Role.human => "human"
  | Role.assistant => "assistant"
  | Role.tool => "tool"

/-- Transcript rendering: one line per message, `"<role>: <content>"`,
joined with `"\n---\n"`. -/
def renderTranscript (messages : List SlimContextMessage) : String :=
  String.intercalate "\n---\n"
    (messages.map fun msg => msg.role.toStr ++ ": " ++ msg.content)

/-- Prefix of the synthetic summary message's content. -/
def summaryContentPrefix : String :=
  "[Context from a summarized portion of the conversation between you and the user]: "

/-- `messages[0]?.role === 'system'`: whether the first message is a
system message. -/
def listHasSystemFirst (messages : List SlimContextMessage) : Bool :=
  match messages.head? with
  | some m => m.role == Role.system
  | none => false

/-- JavaScript array indexing `messages[i]` with an `Int` index:
`undefined` (`none`) outside `[0, length)`. -/
def getAtInt (messages : List SlimContextMessage) (i : Int) :
    Option SlimContextMessage :=
  if i < 0 then none else messages.get? i.toNat

/-- `SummarizeCompressor.computeKeepStartIndex(messages, hasSystemFirst)`:
base split `length - (maxMessages - reservedSlots)` clamped into
`[minStart, length)`, then shifted forward (preferred) or backward by one
when the first kept message is not a `user` turn. -/
def computeKeepStartIndex (maxMessages : Nat)
    (messages : List SlimContextMessage) (hasSystemFirst : Bool) : Int :=
  let reservedSlots : Int := if hasSystemFirst then 2 else 1
  let baseRecentBudget : Int := (maxMessages : Int) - reservedSlots
  let s0 : Int := (messages.length : Int) - baseRecentBudget
  let minStart : Int := if hasSystemFirst then 1 else 0
  let s1 : Int := if s0 < minStart then minStart else s0
  let startIdx : Int :=
    if (messages.length : Int) ≤ s1 then (messages.length : Int) - 1 else s1
  let firstKeptIsUser : Bool :=
    match getAtInt messages startIdx with
    | some firstKept => firstKept.role == Role.user
    | none => true
  if firstKeptIsUser then startIdx
  else
    let fwdOk : Bool :=
      if startIdx + 1 < (messages.length : Int) then
        match getAtInt messages (startIdx + 1) with
        | some candidate => candidate.role == Role.user
        | none => false
      else false
    if fwdOk then startIdx + 1
    else
      let backOk : Bool :=
        if minStart ≤ startIdx - 1 then
          match getAtInt messages (startIdx - 1) with
          | some candidateBack => candidateBack.role == Role.user
          | none => false
        else false
      if backOk then startIdx - 1 else startIdx

/-- `SummarizeCompressor.compress(messages)` (`strategies/summarize.ts`)
with a pure, always-succeeding model capability: early return when
`length <= maxMessages`, otherwise summarize the middle and compose
leading system message (if any), synthetic summary, and kept tail. -/
def summarizeCompress (maxMessages : Nat)
    (model : List SlimContextMessage → SlimContextModelResponse)
    (summaryPrompt : String)
    (messages : List SlimContextMessage) : List SlimContextMessage :=
  if messages.length ≤ maxMessages then messages
  else
    let hasSystemFirst := listHasSystemFirst messages
    let startIdx := computeKeepStartIndex maxMessages messages hasSystemFirst
    let messagesToKeep := messages.drop startIdx.toNat
    let summarizeStart : Nat := if hasSystemFirst then 1 else 0
    let messagesToSummarize := (messages.take startIdx.toNat).drop summarizeStart
    let conversationText := renderTranscript messagesToSummarize
    let promptMessages : List SlimContextMessage :=
      [⟨Role.system, summaryPrompt⟩, ⟨Role.user, conversationText⟩]
    let response := model promptMessages
    let summaryMessage : SlimContextMessage :=
      ⟨Role.system, summaryContentPrefix ++ response.content⟩
    if hasSystemFirst then
      match messages.head? with
      | some systemMessage => systemMessage :: summaryMessage :: messagesToKeep
      | none => summaryMessage :: messagesToKeep
    else summaryMessage :: messagesToKeep

/-- `SummarizeCompressor.compress(messages)` with the model capability's
asynchronous effect made explicit: `await this.model.invoke(...)` may
reject (`Except.error`), and the strategy has no catch around it, so a
rejection short-circuits the remaining composition. -/
def summarizeCompressE {ε : Type} (maxMessages : Nat)
    (model : List SlimContextMessage → Except ε SlimContextModelResponse)
    (summaryPrompt : String)
    (messages : List SlimContextMessage) :
    Except ε (List SlimContextMessage) :=
  if messages.length ≤ maxMessages then Except.ok messages
  else
    let hasSystemFirst := listHasSystemFirst messages
    let startIdx := computeKeepStartIndex maxMessages messages hasSystemFirst
    let messagesToKeep := messages.drop startIdx.toNat
    let summarizeStart : Nat := if hasSystemFirst then 1 else 0
    let messagesToSummarize := (messages.take startIdx.toNat).drop summarizeStart
    let conversationText := renderTranscript messagesToSummarize
    let promptMessages : List SlimContextMessage :=
      [⟨Role.system, summaryPrompt⟩, ⟨Role.user, conversationText⟩]
    (model promptMessages).bind fun response =>
      let summaryMessage : SlimContextMessage :=
        ⟨Role.system, summaryContentPrefix ++ response.content⟩
      Except.ok
        (if hasSystemFirst then
          match messages.head? with
          | some systemMessage => systemMessage :: summaryMessage :: messagesToKeep
          | none => summaryMessage :: messagesToKeep
        else summaryMessage :: messagesToKeep)

/-- Modelled from the spec: the token-threshold `SummarizeCompressor.compress`
of the current release (the version exercised by `tests/summarize.test.ts`,
whose source file is absent from this snapshot — only the older
`maxMessages`-based `strategies/summarize.ts` is present).  Spec steps:
gate first; normalize budget; return input unchanged when
`total <= thresholdTokens`; `keepTailStart = max(0, length -
minRecentMessages)`; the middle `[summarizeStart, keepTailStart)` is
summarized (input unchanged when it is empty); output = leading system
message (if any) + one synthetic `system` summary + the recent tail. -/
def summarizeTokenCompress (cfg : NormalizedBudgetConfig)
    (model : List SlimContextMessage → SlimContextModelResponse)
    (summaryPrompt : String)
    (messages : List SlimContextMessage) : List SlimContextMessage :=
  if ¬ shouldAllowCompression messages then messages
  else
    let th := computeThresholdTokens cfg.maxModelTokens cfg.thresholdPercent
    let total : Int := (estimateTotalTokens messages cfg.estimateTokens : Int)
    if total ≤ th then messages
    else
      let hasSystemFirst := listHasSystemFirst messages
      let keepTailStart := messages.length - cfg.minRecentMessages
      let summarizeStart : Nat := if hasSystemFirst then 1 else 0
      let middle := (messages.take keepTailStart).drop summarizeStart
      if middle.isEmpty then messages
      else
        let conversationText := renderTranscript middle
        let promptMessages : List SlimContextMessage :=
          [⟨Role.system, summaryPrompt⟩, ⟨Role.user, conversationText⟩]
        let response := model promptMessages
        let summaryMessage : SlimContextMessage :=
          ⟨Role.system, summaryContentPrefix ++ response.content⟩
        let tail := messages.drop keepTailStart
        if hasSystemFirst then messages.take 1 ++ summaryMessage :: tail
        else summaryMessage :: tail

/-- Modelled from the spec: the token-threshold summarize `compress` with
the model capability's possible rejection made explicit, as in
`summarizeCompressE`; the failure propagates uncaught. -/
def summarizeTokenCompressE {ε : Type} (cfg : NormalizedBudgetConfig)
    (model : List SlimContextMessage → Except ε SlimContextModelResponse)
    (summaryPrompt : String)
    (messages : List SlimContextMessage) :
    Except ε (List SlimContextMessage) :=
  if ¬ shouldAllowCompression messages then Except.ok messages
  else
    let th := computeThresholdTokens cfg.maxModelTokens cfg.thresholdPercent
    let total : Int := (estimateTotalTokens messages cfg.estimateTokens : Int)
    if total ≤ th then Except.ok messages
    else
      let hasSystemFirst := listHasSystemFirst messages
      let keepTailStart := messages.length - cfg.minRecentMessages
      let summarizeStart : Nat := if hasSystemFirst then 1 else 0
      let middle := (messages.take keepTailStart).drop summarizeStart
      if middle.isEmpty then Except.ok messages
      else
        let conversationText := renderTranscript middle
        let promptMessages : List SlimContextMessage :=
          [⟨Role.system, summaryPrompt⟩, ⟨Role.user, conversationText⟩]
        (model promptMessages).bind fun response =>
          let summaryMessage : SlimContextMessage :=
            ⟨Role.system, summaryContentPrefix ++ response.content⟩
          let tail := messages.drop keepTailStart
          Except.ok
            (if hasSystemFirst then messages.take 1 ++ summaryMessage :: tail
            else summaryMessage :: tail)

/-- Modelled from the spec: the summarize strategy's budget
normalization uses the strategy-specific default `minRecentMessages = 4`. -/
def SummarizeCompressor.normalize (config : TokenBudgetConfig) :
    NormalizedBudgetConfig :=
  normalizeBudgetConfig config (some 4)

/-! ### Concrete instances used by scenario theorems and witnesses -/

/-- A constant token estimator (e.g. `estimateTokens: () => 100` in the
repository's tests). -/
def constEstimator (n : Nat) : TokenEstimator := fun _ => n

/-- A model capability returning a fixed summary text (the tests'
`fakeModel`). -/
def constModel (s : String) :
    List SlimContextMessage → SlimContextModelResponse := fun _ => ⟨s⟩

/-- The caller configuration with every field unset. -/
def emptyBudgetConfig : TokenBudgetConfig := ⟨none, none, none, none⟩

/-- Scenario A configuration: `maxModelTokens=400`,
`thresholdPercent=0.5`, constant estimator 100, `minRecentMessages=2`. -/
def scenarioAConfig : TokenBudgetConfig :=
  ⟨some 400, some (1 / 2), some (constEstimator 100), some 2⟩

/-- Scenario A message list. -/
def scenarioAMessages : List SlimContextMessage :=
  [⟨Role.system, "sys"⟩, ⟨Role.user, "u1"⟩, ⟨Role.assistant, "a1"⟩,
   ⟨Role.user, "u2"⟩, ⟨Role.assistant, "a2"⟩, ⟨Role.user, "u3"⟩]

/-- A normalized budget with threshold percent 0, used to exercise the
summarization path on small concrete inputs. -/
def zeroThresholdBudget : NormalizedBudgetConfig :=
  ⟨400, 0, constEstimator 50, 2⟩

/-! ### Lemmas about the two trim passes -/

lemma keptSum_cons (e : TrimEntry) (es : List TrimEntry) :
    keptSum (e :: es) = (if e.keep then e.cnt else 0) + keptSum es := by
  simp only [keptSum, List.filter_cons]
  cases h : e.keep <;> simp [h]

lemma keptSum_map_true (l : List (SlimContextMessage × Nat)) :
    keptSum (l.map fun p => ⟨p.1, p.2, true⟩) = (l.map fun p => p.2).sum := by
  induction l with
  | nil => simp [keptSum]
  | cons p rest ih => simp [keptSum_cons, ih]

lemma pass1_fst_map (th : Int) (pf : Nat) :
    ∀ (es : List (SlimContextMessage × Nat)) (i : Nat) (t : Int),
      ((pass1 th pf i t es).1).map (fun e => (e.msg, e.cnt)) = es := by
  intro es
  induction es with
  | nil => intro i t; simp [pass1]
  | cons p rest ih =>
    intro i t
    obtain ⟨m, c⟩ := p
    simp only [pass1]
    split_ifs with h1 h2
    · simp only [List.map_cons, List.map_map]
      exact congrArg (List.cons (m, c)) (List.map_id rest)
    · simp [ih]
    · simp [ih]

lemma pass1_system_keep (th : Int) (pf : Nat) :
    ∀ (es : List (SlimContextMessage × Nat)) (i : Nat) (t : Int),
      ∀ e ∈ (pass1 th pf i t es).1, e.msg.role = Role.system → e.keep = true := by
  intro es
  induction es with
  | nil => intro i t e he; simp [pass1] at he
  | cons p rest ih =>
    intro i t e he hsys
    obtain ⟨m, c⟩ := p
    simp only [pass1] at he
    split_ifs at he with h1 h2
    · rcases List.mem_cons.mp he with h | h
      · rw [h]
      · obtain ⟨q, _, hq⟩ := List.mem_map.mp h
        rw [← hq]
    · rcases List.mem_cons.mp he with h | h
      · rw [h]
      · exact ih (i + 1) t e h hsys
    · rcases List.mem_cons.mp he with h | h
      · exfalso
        rw [h] at hsys
        exact h2 (Or.inr hsys)
      · exact ih (i + 1) (t - (c : Int)) e h hsys

lemma pass1_drop_suffix (th : Int) (pf : Nat) :
    ∀ (es : List (SlimContextMessage × Nat)) (i : Nat) (t : Int),
      ((pass1 th pf i t es).1).drop (pf - i) =
        (es.drop (pf - i)).map (fun p => ⟨p.1, p.2, true⟩) := by
  intro es
  induction es with
  | nil => intro i t; simp [pass1]
  | cons p rest ih =>
    intro i t
    obtain ⟨m, c⟩ := p
    simp only [pass1]
    split_ifs with h1 h2
    · exact (List.map_drop (fun p : SlimContextMessage × Nat =>
        (⟨p.1, p.2, true⟩ : TrimEntry)) ((m, c) :: rest) (pf - i)).symm
    · rcases Nat.eq_zero_or_pos (pf - i) with hz | hpos
      · rw [hz]
        simp only [List.drop_zero, List.map_cons]
        have hall : pf - (i + 1) = 0 := by omega
        have h := ih (i + 1) t
        rw [hall] at h
        simp only [List.drop_zero] at h
        simp [h]
      · have hstep : pf - i = (pf - (i + 1)) + 1 := by omega
        rw [hstep]
        simp only [List.drop_succ_cons]
        exact ih (i + 1) t
    · have hlt : i < pf := by
        rcases Nat.lt_or_ge i pf with h | h
        · exact h
        · exact absurd (Or.inl h) h2
      have hstep : pf - i = (pf - (i + 1)) + 1 := by omega
      rw [hstep]
      simp only [List.drop_succ_cons]
      exact ih (i + 1) (t - (c : Int))

lemma pass1_total (th : Int) (pf : Nat) :
    ∀ (es : List (SlimContextMessage × Nat)) (i : Nat) (t : Int),
      (pass1 th pf i t es).2 + ((es.map fun p => p.2).sum : Int) =
        t + (keptSum (pass1 th pf i t es).1 : Int) := by
  intro es
  induction es with
  | nil => intro i t; simp [pass1, keptSum]
  | cons p rest ih =>
    intro i t
    obtain ⟨m, c⟩ := p
    simp only [pass1]
    split_ifs with h1 h2
    · simp only [keptSum_cons, if_pos, List.map_cons, List.sum_cons,
        keptSum_map_true]
      push_cast
      rw [List.map_map]
      ring_nf
      rfl
    · have h := ih (i + 1) t
      simp only [keptSum_cons, List.map_cons, List.sum_cons, if_pos]
      push_cast
      push_cast at h
      omega
    · have h := ih (i + 1) (t - (c : Int))
      simp only [keptSum_cons, List.map_cons, List.sum_cons, if_neg,
        Bool.false_eq_true, not_false_iff]
      push_cast
      push_cast at h
      omega

lemma pass2_fst_map (th : Int) (pf : Nat) :
    ∀ (es : List TrimEntry) (i : Nat) (t : Int),
      ((pass2 th pf i t es).1).map (fun e => (e.msg, e.cnt)) =
        es.map (fun e => (e.msg, e.cnt)) := by
  intro es
  induction es with
  | nil => intro i t; simp [pass2]
  | cons e rest ih =>
    intro i t
    simp only [pass2]
    split_ifs with h1 h2 h3
    · rfl
    · simp [ih]
    · simp [ih]
    · simp [ih]

lemma pass2_system_keep (th : Int) (pf : Nat) :
    ∀ (es : List TrimEntry) (i : Nat) (t : Int),
      (∀ e ∈ es, e.msg.role = Role.system → e.keep = true) →
      ∀ e ∈ (pass2 th pf i t es).1, e.msg.role = Role.system → e.keep = true := by
  intro es
  induction es with
  | nil => intro i t _ e he; simp [pass2] at he
  | cons a rest ih =>
    intro i t hin e he hsys
    simp only [pass2] at he
    split_ifs at he with h1 h2 h3
    · exact hin e he hsys
    · rcases List.mem_cons.mp he with h | h
      · rw [h]; exact hin a (List.mem_cons_self a rest) (h ▸ hsys)
      · exact ih (i + 1) t (fun x hx => hin x (List.mem_cons_of_mem a hx)) e h hsys
    · rcases List.mem_cons.mp he with h | h
      · rw [h]; exact hin a (List.mem_cons_self a rest) (h ▸ hsys)
      · exact ih (i + 1) t (fun x hx => hin x (List.mem_cons_of_mem a hx)) e h hsys
    · rcases List.mem_cons.mp he with h | h
      · exfalso
        rw [h] at hsys
        exact h3 hsys
      · exact ih (i + 1) (t - (a.cnt : Int))
          (fun x hx => hin x (List.mem_cons_of_mem a hx)) e h hsys

lemma pass2_drop_suffix (th : Int) (pf : Nat) :
    ∀ (es : List TrimEntry) (i : Nat) (t : Int),
      ((pass2 th pf i t es).1).drop (pf - i) = es.drop (pf - i) := by
  intro es
  induction es with
  | nil => intro i t; simp [pass2]
  | cons a rest ih =>
    intro i t
    simp only [pass2]
    split_ifs with h1 h2 h3
    · rfl
    · rcases Nat.eq_zero_or_pos (pf - i) with hz | hpos
      · exact absurd (Or.inl (by omega : pf ≤ i)) h1
      · have hstep : pf - i = (pf - (i + 1)) + 1 := by omega
        rw [hstep]
        simp only [List.drop_succ_cons]
        exact ih (i + 1) t
    · have hlt : i < pf := by
        rcases Nat.lt_or_ge i pf with h | h
        · exact h
        · exact absurd (Or.inl h) h1
      have hstep : pf - i = (pf - (i + 1)) + 1 := by omega
      rw [hstep]
      simp only [List.drop_succ_cons]
      exact ih (i + 1) t
    · have hlt : i < pf := by
        rcases Nat.lt_or_ge i pf with h | h
        · exact h
        · exact absurd (Or.inl h) h1
      have hstep : pf - i = (pf - (i + 1)) + 1 := by omega
      rw [hstep]
      simp only [List.drop_succ_cons]
      exact ih (i + 1) (t - (a.cnt : Int))

lemma pass2_total (th : Int) (pf : Nat) :
    ∀ (es : List TrimEntry) (i : Nat) (t : Int),
      (pass2 th pf i t es).2 + (keptSum es : Int) =
        t + (keptSum (pass2 th pf i t es).1 : Int) := by
  intro es
  induction es with
  | nil => intro i t; simp [pass2]
  | cons a rest ih =>
    intro i t
    simp only [pass2]
    split_ifs with h1 h2 h3
    · ring
    · have h := ih (i + 1) t
      simp only [keptSum_cons]
      push_cast
      push_cast at h
      omega
    · have h := ih (i + 1) t
      simp only [keptSum_cons]
      push_cast
      push_cast at h
      omega
    · have h := ih (i + 1) (t - (a.cnt : Int))
      have hk : a.keep = true := by
        cases hb : a.keep
        · exact absurd hb h2
        · rfl
      simp only [keptSum_cons, hk, if_pos, if_neg, Bool.false_eq_true]
      push_cast
      push_cast at h
      omega

lemma pass2_over_threshold_systems (th : Int) (pf : Nat) :
    ∀ (es : List TrimEntry) (i : Nat) (t : Int),
      th < (pass2 th pf i t es).2 →
      ∀ e ∈ ((pass2 th pf i t es).1).take (pf - i),
        e.keep = true → e.msg.role = Role.system := by
  intro es
  induction es with
  | nil => intro i t _ e he; simp [pass2] at he
  | cons a rest ih =>
    intro i t hover e he hkeep
    simp only [pass2] at hover he
    split_ifs at hover he with h1 h2 h3
    · exfalso
      rcases h1 with h | h
      · rw [Nat.sub_eq_zero_of_le h] at he
        simp at he
      · exact absurd hover (not_lt.mpr h)
    · have hlt : i < pf := by
        rcases Nat.lt_or_ge i pf with h | h
        · exact h
        · exact absurd (Or.inl h) h1
      have hstep : pf - i = (pf - (i + 1)) + 1 := by omega
      rw [hstep] at he
      simp only [List.take_succ_cons] at he
      rcases List.mem_cons.mp he with h | h
      · exfalso
        rw [h] at hkeep
        rw [hkeep] at h2
        exact absurd h2 (by decide)
      · exact ih (i + 1) t hover e h hkeep
    · have hlt : i < pf := by
        rcases Nat.lt_or_ge i pf with h | h
        · exact h
        · exact absurd (Or.inl h) h1
      have hstep : pf - i = (pf - (i + 1)) + 1 := by omega
      rw [hstep] at he
      simp only [List.take_succ_cons] at he
      rcases List.mem_cons.mp he with h | h
      · rw [h]; exact h3
      · exact ih (i + 1) t hover e h hkeep
    · have hlt : i < pf := by
        rcases Nat.lt_or_ge i pf with h | h
        · exact h
        · exact absurd (Or.inl h) h1
      have hstep : pf - i = (pf - (i + 1)) + 1 := by omega
      rw [hstep] at he
      simp only [List.take_succ_cons] at he
      rcases List.mem_cons.mp he with h | h
      · exfalso
        rw [h] at hkeep
        simp at hkeep
      · exact ih (i + 1) (t - (a.cnt : Int)) hover e h hkeep

lemma pass1_noop (th : Int) (pf : Nat) :
    ∀ (es : List (SlimContextMessage × Nat)) (i : Nat) (t : Int),
      (∀ p ∈ es.take (pf - i), p.1.role = Role.system) →
      pass1 th pf i t es = (es.map fun p => ⟨p.1, p.2, true⟩, t) := by
  intro es
  induction es with
  | nil => intro i t _; simp [pass1]
  | cons p rest ih =>
    intro i t hsys
    obtain ⟨m, c⟩ := p
    simp only [pass1]
    split_ifs with h1 h2
    · rfl
    · have hrec := ih (i + 1) t (by
        intro q hq
        rcases Nat.eq_zero_or_pos (pf - i) with hz | hpos
        · have hz1 : pf - (i + 1) = 0 := by omega
          rw [hz1] at hq
          simp at hq
        · have hstep : pf - i = (pf - (i + 1)) + 1 := by omega
          apply hsys
          rw [hstep]
          simp only [List.take_succ_cons]
          exact List.mem_cons_of_mem _ hq)
      rw [hrec]
      rfl
    · exfalso
      rcases Nat.lt_or_ge i pf with hlt | hge
      · have hstep : pf - i = (pf - (i + 1)) + 1 := by omega
        apply h2
        right
        have := hsys (m, c) (by rw [hstep]; simp)
        exact this
      · exact h2 (Or.inl hge)

lemma pass2_noop (th : Int) (pf : Nat) :
    ∀ (es : List TrimEntry) (i : Nat) (t : Int),
      (∀ e ∈ es.take (pf - i), e.msg.role = Role.system) →
      pass2 th pf i t es = (es, t) := by
  intro es
  induction es with
  | nil => intro i t _; simp [pass2]
  | cons a rest ih =>
    intro i t hsys
    simp only [pass2]
    split_ifs with h1 h2 h3
    · rfl
    · have hrec := ih (i + 1) t (by
        intro q hq
        rcases Nat.eq_zero_or_pos (pf - i) with hz | hpos
        · exact absurd (Or.inl (by omega : pf ≤ i)) h1
        · have hstep : pf - i = (pf - (i + 1)) + 1 := by omega
          apply hsys
          rw [hstep]
          simp only [List.take_succ_cons]
          exact List.mem_cons_of_mem _ hq)
      rw [hrec]
    · have hrec := ih (i + 1) t (by
        intro q hq
        rcases Nat.eq_zero_or_pos (pf - i) with hz | hpos
        · exact absurd (Or.inl (by omega : pf ≤ i)) h1
        · have hstep : pf - i = (pf - (i + 1)) + 1 := by omega
          apply hsys
          rw [hstep]
          simp only [List.take_succ_cons]
          exact List.mem_cons_of_mem _ hq)
      rw [hrec]
    · exfalso
      rcases Nat.lt_or_ge i pf with hlt | hge
      · have hstep : pf - i = (pf - (i + 1)) + 1 := by omega
        exact h3 (hsys a (by rw [hstep]; simp))
      · exact h1 (Or.inl hge) |>.elim

/-! ### Bridging lemmas -/

lemma entries_map_pair (es : List TrimEntry) (msgs : List SlimContextMessage)
    (est : TokenEstimator)
    (h : es.map (fun e => (e.msg, e.cnt)) = msgs.map (fun m => (m, est m))) :
    es.map (fun e => e.msg) = msgs ∧ ∀ e ∈ es, e.cnt = est e.msg := by
  induction es generalizing msgs with
  | nil =>
    cases msgs with
    | nil => simp
    | cons m ms => simp at h
  | cons e rest ih =>
    cases msgs with
    | nil => simp at h
    | cons m ms =>
      simp only [List.map_cons, List.cons.injEq, Prod.mk.injEq] at h
      obtain ⟨⟨hm, hc⟩, htail⟩ := h
      obtain ⟨ih1, ih2⟩ := ih ms htail
      refine ⟨by simp [hm, ih1], ?_⟩
      intro x hx
      rcases List.mem_cons.mp hx with hx | hx
      · rw [hx, hc, hm]
      · exact ih2 x hx

lemma filter_keep_map_true (l : List (SlimContextMessage × Nat)) :
    (((l.map fun p => (⟨p.1, p.2, true⟩ : TrimEntry)).filter fun e => e.keep).map
      fun e => e.msg) = l.map fun p => p.1 := by
  induction l with
  | nil => simp
  | cons p rest ih => simp [List.filter_cons, ih]

lemma filter_system_of_keep (es : List TrimEntry)
    (h : ∀ e ∈ es, e.msg.role = Role.system → e.keep = true) :
    ((es.filter fun e => e.keep).map fun e => e.msg).filter
        (fun m => m.role == Role.system) =
      (es.map fun e => e.msg).filter (fun m => m.role == Role.system) := by
  induction es with
  | nil => simp
  | cons e rest ih =>
    have hrest := ih fun x hx => h x (List.mem_cons_of_mem e hx)
    by_cases hsys : e.msg.role = Role.system
    · have hkeep : e.keep = true := h e (List.mem_cons_self e rest) hsys
      simp [List.filter_cons, hkeep, hsys, hrest]
    · cases hk : e.keep
      · simp [List.filter_cons, hk, hsys, hrest]
      · simp [List.filter_cons, hk, hsys, hrest]

lemma cast_ceilDiv_four (n : Nat) :
    (((n + 3) / 4 : Nat) : Int) = ⌈(n : ℚ) / 4⌉ := by
  set k : ℕ := (n + 3) / 4 with hk
  have h1 : 4 * k ≤ n + 3 := by omega
  have h2 : n ≤ 4 * k := by omega
  have hq1 : (4 : ℚ) * (k : ℚ) ≤ (n : ℚ) + 3 := by exact_mod_cast h1
  have hq2 : (n : ℚ) ≤ 4 * (k : ℚ) := by exact_mod_cast h2
  rw [eq_comm, Int.ceil_eq_iff]
  refine ⟨?_, ?_⟩
  · push_cast
    rw [sub_lt_iff_lt_add]
    rw [div_add' _ _ _ (by norm_num : (4:ℚ) ≠ 0)]
    rw [lt_div_iff₀ (by norm_num : (0:ℚ) < 4)]
    linarith
  · push_cast
    rw [div_le_iff₀ (by norm_num : (0:ℚ) < 4)]
    linarith

lemma computeKeepStartIndex_cases (maxM : Nat)
    (messages : List SlimContextMessage) (hasS : Bool)
    (h4 : 4 ≤ maxM) (hlen : maxM < messages.length) :
    computeKeepStartIndex maxM messages hasS =
        (messages.length : Int) - ((maxM : Int) - (if hasS then 2 else 1)) - 1 ∨
      computeKeepStartIndex maxM messages hasS =
        (messages.length : Int) - ((maxM : Int) - (if hasS then 2 else 1)) ∨
      computeKeepStartIndex maxM messages hasS =
        (messages.length : Int) - ((maxM : Int) - (if hasS then 2 else 1)) + 1 := by
  unfold computeKeepStartIndex
  dsimp only
  cases hasS with
  | false =>
    simp only [Bool.false_eq_true, if_false]
    have e1 : ((messages.length : Int) - ((maxM : Int) - 1) < 0) = False := by
      simp only [eq_iff_iff, iff_false, not_lt]
      omega
    have e2 : ((messages.length : Int) ≤
        (messages.length : Int) - ((maxM : Int) - 1)) = False := by
      simp only [eq_iff_iff, iff_false, not_le]
      omega
    simp only [e1, e2, if_false]
    split_ifs <;> omega
  | true =>
    simp only [if_true]
    have e1 : ((messages.length : Int) - ((maxM : Int) - 2) < 1) = False := by
      simp only [eq_iff_iff, iff_false, not_lt]
      omega
    have e2 : ((messages.length : Int) ≤
        (messages.length : Int) - ((maxM : Int) - 2)) = False := by
      simp only [eq_iff_iff, iff_false, not_le]
      omega
    simp only [e1, e2, if_false]
    split_ifs <;> omega

lemma total_int_eq (cfg : NormalizedBudgetConfig)
    (messages : List SlimContextMessage) :
    ((((messages.map fun m => (m, cfg.estimateTokens m)).map
        fun p => p.2).sum : Nat) : Int) =
      ((estimateTotalTokens messages cfg.estimateTokens : Nat) : Int) := by
  rw [List.map_map]
  rfl

lemma trimCompress_of_gate_false (cfg : NormalizedBudgetConfig)
    (messages : List SlimContextMessage)
    (h : shouldAllowCompression messages = false) :
    trimCompress cfg messages = messages := by
  unfold trimCompress
  rw [if_pos]
  simp [h]

lemma trimCompress_of_le (cfg : NormalizedBudgetConfig)
    (messages : List SlimContextMessage)
    (hle : ((estimateTotalTokens messages cfg.estimateTokens : Nat) : Int) ≤
      computeThresholdTokens cfg.maxModelTokens cfg.thresholdPercent) :
    trimCompress cfg messages = messages := by
  by_cases hgate : shouldAllowCompression messages = true
  · unfold trimCompress
    dsimp only
    rw [if_neg (by simp [hgate])]
    rw [if_pos (by rw [total_int_eq]; exact hle)]
  · refine trimCompress_of_gate_false cfg messages ?_
    cases hb : shouldAllowCompression messages
    · rfl
    · exact absurd hb hgate

lemma trimCompress_eq (cfg : NormalizedBudgetConfig)
    (messages : List SlimContextMessage)
    (hg : shouldAllowCompression messages = true)
    (hover : computeThresholdTokens cfg.maxModelTokens cfg.thresholdPercent <
      ((estimateTotalTokens messages cfg.estimateTokens : Nat) : Int)) :
    trimCompress cfg messages =
      (((pass2 (computeThresholdTokens cfg.maxModelTokens cfg.thresholdPercent)
          (messages.length - cfg.minRecentMessages) 0
          (pass1 (computeThresholdTokens cfg.maxModelTokens cfg.thresholdPercent)
            (messages.length - cfg.minRecentMessages) 0
            ((estimateTotalTokens messages cfg.estimateTokens : Nat) : Int)
            (messages.map fun m => (m, cfg.estimateTokens m))).2
          (pass1 (computeThresholdTokens cfg.maxModelTokens cfg.thresholdPercent)
            (messages.length - cfg.minRecentMessages) 0
            ((estimateTotalTokens messages cfg.estimateTokens : Nat) : Int)
            (messages.map fun m => (m, cfg.estimateTokens m))).1).1).filter
        fun e => e.keep).map fun e => e.msg := by
  unfold trimCompress
  dsimp only
  rw [if_neg (by simp [hg])]
  rw [if_neg]
  · simp only [total_int_eq]
  · rw [total_int_eq]
    exact not_le.mpr hover

lemma estimateTotalTokens_filter_keep (est : TokenEstimator) :
    ∀ es : List TrimEntry, (∀ e ∈ es, e.cnt = est e.msg) →
      estimateTotalTokens ((es.filter fun e => e.keep).map fun e => e.msg)
        est = keptSum es := by
  intro es
  induction es with
  | nil => intro _; rfl
  | cons e rest ih =>
    intro h
    have hrest := ih fun x hx => h x (List.mem_cons_of_mem e hx)
    have he : e.cnt = est e.msg := h e (List.mem_cons_self e rest)
    cases hk : e.keep
    · simpa [estimateTotalTokens, keptSum_cons, List.filter_cons, hk]
        using hrest
    · simp only [estimateTotalTokens, keptSum_cons, List.filter_cons, hk,
        if_pos, List.map_cons, List.sum_cons] at hrest ⊢
      omega

lemma trimCompress_noop_of_allSystemPrefix (cfg : NormalizedBudgetConfig)
    (K : List SlimContextMessage)
    (hpre : ∀ m ∈ K.take (K.length - cfg.minRecentMessages),
      m.role = Role.system) :
    trimCompress cfg K = K := by
  by_cases hgate : shouldAllowCompression K = true
  case neg =>
    refine trimCompress_of_gate_false cfg K ?_
    cases hb : shouldAllowCompression K
    · rfl
    · exact absurd hb hgate
  by_cases hle : ((estimateTotalTokens K cfg.estimateTokens : Nat) : Int) ≤
      computeThresholdTokens cfg.maxModelTokens cfg.thresholdPercent
  case pos => exact trimCompress_of_le cfg K hle
  rw [trimCompress_eq cfg K hgate (not_le.mp hle)]
  set th := computeThresholdTokens cfg.maxModelTokens cfg.thresholdPercent
    with hth
  set pf := K.length - cfg.minRecentMessages with hpf
  set entriesK := K.map fun m => (m, cfg.estimateTokens m) with hentriesK
  set tot : Int := ((estimateTotalTokens K cfg.estimateTokens : Nat) : Int)
    with htot
  have hsys1 : ∀ p ∈ entriesK.take (pf - 0), p.1.role = Role.system := by
    intro p hp
    rw [Nat.sub_zero, hentriesK, ← List.map_take] at hp
    obtain ⟨m, hm, hpm⟩ := List.mem_map.mp hp
    rw [← hpm]
    exact hpre m hm
  rw [pass1_noop th pf entriesK 0 tot hsys1]
  dsimp only
  have hsys2 : ∀ e ∈ ((entriesK.map fun p =>
      (⟨p.1, p.2, true⟩ : TrimEntry)).take (pf - 0)),
      e.msg.role = Role.system := by
    intro e he
    rw [Nat.sub_zero, ← List.map_take] at he
    obtain ⟨p, hp, hep⟩ := List.mem_map.mp he
    rw [← hep]
    rw [hentriesK, ← List.map_take] at hp
    obtain ⟨m, hm, hpm⟩ := List.mem_map.mp hp
    rw [← hpm]
    exact hpre m hm
  rw [pass2_noop th pf (entriesK.map fun p => (⟨p.1, p.2, true⟩ : TrimEntry))
    0 tot hsys2]
  dsimp only
  rw [filter_keep_map_true entriesK, hentriesK, List.map_map]
  exact List.map_id K

/-! ### Claim theorems -/

/-- C3: `shouldAllowCompression` returns false for the empty message
list, and for every non-empty message list it returns true if and only
if the role of the final message is `user` or `human`. -/
theorem shouldAllowCompression_spec :
    shouldAllowCompression [] = false ∧
    ∀ (messages : List SlimContextMessage) (m : SlimContextMessage),
      messages.getLast? = some m →
      (shouldAllowCompression messages = true ↔
        (m.role = Role.user ∨ m.role = Role.human)) := by
  refine ⟨rfl, ?_⟩
  intro messages m hlast
  simp [shouldAllowCompression, hlast]

/-- Witness for C3 at the one-element list `[user "hi"]`. -/
theorem shouldAllowCompression_spec_witness :
    shouldAllowCompression [⟨Role.user, "hi"⟩] = true ↔
      ((⟨Role.user, "hi"⟩ : SlimContextMessage).role = Role.user ∨
        (⟨Role.user, "hi"⟩ : SlimContextMessage).role = Role.human) :=
  shouldAllowCompression_spec.2 [⟨Role.user, "hi"⟩] ⟨Role.user, "hi"⟩ rfl

/-- C4: the Trim strategy never drops a system message: the system
messages of the output are exactly the system messages of the input (in
order and multiplicity), and every system message of the input is in the
output. -/
theorem trim_preserves_system_messages (config : TokenBudgetConfig)
    (messages : List SlimContextMessage) :
    ((TrimCompressor.compress config messages).filter
        fun m => m.role == Role.system) =
      messages.filter (fun m => m.role == Role.system) ∧
    ∀ m ∈ messages, m.role = Role.system →
      m ∈ TrimCompressor.compress config messages := by
  have hfil : ((TrimCompressor.compress config messages).filter
      fun m => m.role == Role.system) =
      messages.filter (fun m => m.role == Role.system) := by
    unfold TrimCompressor.compress trimCompress
    dsimp only
    split_ifs with h1 h2
    all_goals try rfl
    set cfg := TrimCompressor.normalize config with hcfg
    set th := computeThresholdTokens cfg.maxModelTokens cfg.thresholdPercent
      with hth
    set pf := messages.length - cfg.minRecentMessages with hpf
    set entries := messages.map fun m => (m, cfg.estimateTokens m)
      with hentries
    set tot : Int := (((entries.map fun p => p.2).sum : Nat) : Int) with htot
    have hk1 := pass1_system_keep th pf entries 0 tot
    have hk2 := pass2_system_keep th pf (pass1 th pf 0 tot entries).1 0
      (pass1 th pf 0 tot entries).2 hk1
    have hpair : ((pass2 th pf 0 (pass1 th pf 0 tot entries).2
        (pass1 th pf 0 tot entries).1).1).map (fun e => (e.msg, e.cnt)) =
        messages.map (fun m => (m, cfg.estimateTokens m)) := by
      rw [pass2_fst_map, pass1_fst_map]
    have hmsgs := (entries_map_pair _ _ _ hpair).1
    rw [filter_system_of_keep _ hk2, hmsgs]
  refine ⟨hfil, ?_⟩
  intro m hm hrole
  have hmemf : m ∈ messages.filter (fun m => m.role == Role.system) :=
    List.mem_filter.mpr ⟨hm, by simp [hrole]⟩
  rw [← hfil] at hmemf
  exact (List.mem_filter.mp hmemf).1

/-- Witness for C4 on the Scenario A input: the system message survives
trimming. -/
theorem trim_preserves_system_messages_witness :
    (⟨Role.system, "sys"⟩ : SlimContextMessage) ∈
      TrimCompressor.compress scenarioAConfig scenarioAMessages :=
  (trim_preserves_system_messages scenarioAConfig scenarioAMessages).2
    ⟨Role.system, "sys"⟩ (by simp [scenarioAMessages]) rfl

/-- C5: the last `minRecentMessages` messages of the input always form
the final segment of the Trim strategy's output, in their original
order: the output is some prefix followed by exactly
`messages.drop (length - minRecentMessages)`. -/
theorem trim_preserves_recent_tail (config : TokenBudgetConfig)
    (messages : List SlimContextMessage) :
    ∃ p, TrimCompressor.compress config messages =
      p ++ messages.drop
        (messages.length - (TrimCompressor.normalize config).minRecentMessages) := by
  unfold TrimCompressor.compress trimCompress
  dsimp only
  split_ifs with h1 h2
  all_goals try exact ⟨messages.take _, (List.take_append_drop _ messages).symm⟩
  set cfg := TrimCompressor.normalize config with hcfg
  set th := computeThresholdTokens cfg.maxModelTokens cfg.thresholdPercent
    with hth
  set pf := messages.length - cfg.minRecentMessages with hpf
  set entries := messages.map fun m => (m, cfg.estimateTokens m)
    with hentries
  set tot : Int := (((entries.map fun p => p.2).sum : Nat) : Int) with htot
  set after1 := pass1 th pf 0 tot entries with hafter1
  set after2 := pass2 th pf 0 after1.2 after1.1 with hafter2
  refine ⟨((after2.1.take pf).filter (fun e => e.keep)).map (fun e => e.msg), ?_⟩
  conv_lhs => rw [← List.take_append_drop pf after2.1]
  rw [List.filter_append, List.map_append]
  congr 1
  have hdrop2 : after2.1.drop pf = after1.1.drop pf := by
    have h := pass2_drop_suffix th pf after1.1 0 after1.2
    simpa using h
  have hdrop1 : after1.1.drop pf =
      (entries.drop pf).map (fun p => ⟨p.1, p.2, true⟩) := by
    have h := pass1_drop_suffix th pf entries 0 tot
    simpa using h
  rw [hdrop2, hdrop1, filter_keep_map_true, hentries, ← List.map_drop,
    List.map_map]
  exact List.map_id _

/-- C1: for every non-empty message list whose last message's role is
`assistant`, `system`, or `tool`, `compress` returns the input list
unchanged for both the Trim strategy and the (spec-modelled,
token-threshold) Summarize strategy, for any configuration, model and
estimated token total. -/
theorem compress_identity_on_non_user_last
    (config : TokenBudgetConfig) (cfg : NormalizedBudgetConfig) {ε : Type}
    (modelE : List SlimContextMessage → Except ε SlimContextModelResponse)
    (model : List SlimContextMessage → SlimContextModelResponse)
    (prompt : String)
    (messages : List SlimContextMessage) (m : SlimContextMessage)
    (hlast : messages.getLast? = some m)
    (hrole : m.role = Role.assistant ∨ m.role = Role.system ∨
      m.role = Role.tool) :
    TrimCompressor.compress config messages = messages ∧
    summarizeTokenCompress cfg model prompt messages = messages ∧
    summarizeTokenCompressE cfg modelE prompt messages =
      Except.ok messages := by
  have hgate : shouldAllowCompression messages = false := by
    rcases hrole with h | h | h <;> simp [shouldAllowCompression, hlast, h]
  refine ⟨?_, ?_, ?_⟩
  · simp [TrimCompressor.compress, trimCompress, hgate]
  · simp [summarizeTokenCompress, hgate]
  · simp [summarizeTokenCompressE, hgate]

/-- Witness for C1 at the singleton list `[assistant "a"]`. -/
theorem compress_identity_on_non_user_last_witness :
    TrimCompressor.compress emptyBudgetConfig [⟨Role.assistant, "a"⟩] =
      [⟨Role.assistant, "a"⟩] ∧
    summarizeTokenCompress zeroThresholdBudget (constModel "s") "P"
      [⟨Role.assistant, "a"⟩] = [⟨Role.assistant, "a"⟩] ∧
    summarizeTokenCompressE zeroThresholdBudget
      (fun _ => (Except.error "boom" : Except String SlimContextModelResponse))
      "P" [⟨Role.assistant, "a"⟩] = Except.ok [⟨Role.assistant, "a"⟩] :=
  compress_identity_on_non_user_last emptyBudgetConfig zeroThresholdBudget
    (fun _ => Except.error "boom") (constModel "s") "P"
    [⟨Role.assistant, "a"⟩] ⟨Role.assistant, "a"⟩ rfl (Or.inl rfl)

/-- C9: a rejection of the model capability propagates out of
`SummarizeCompressor.compress` unmodified — no retry, no wrapping, no
substituted summary — and when the strategy does not reach the model
call the input is returned unchanged.  Stated for the `maxMessages`
version present in `strategies/summarize.ts` and for the spec-modelled
token-threshold version. -/
theorem summarize_model_failure_propagates {ε : Type} (e : ε)
    (maxMessages : Nat) (cfg : NormalizedBudgetConfig) (prompt : String)
    (messages : List SlimContextMessage) :
    ((messages.length ≤ maxMessages →
      summarizeCompressE maxMessages (fun _ => Except.error e) prompt
        messages = Except.ok messages) ∧
    (maxMessages < messages.length →
      summarizeCompressE maxMessages (fun _ => Except.error e) prompt
        messages = Except.error e)) ∧
    (summarizeTokenCompressE cfg (fun _ => Except.error e) prompt messages =
        Except.ok messages ∨
      summarizeTokenCompressE cfg (fun _ => Except.error e) prompt messages =
        Except.error e) := by
  refine ⟨⟨?_, ?_⟩, ?_⟩
  · intro h
    simp [summarizeCompressE, h]
  · intro h
    simp [summarizeCompressE, Nat.not_le.mpr h, Except.bind]
  · unfold summarizeTokenCompressE
    dsimp only
    split_ifs
    all_goals try exact Or.inl rfl
    all_goals exact Or.inr rfl

/-- Witness for C9: a five-message history with `maxMessages = 4`
rejects with exactly the model's failure. -/
theorem summarize_model_failure_propagates_witness :
    summarizeCompressE 4
      (fun _ => (Except.error "boom" : Except String SlimContextModelResponse))
      "P" [⟨Role.system, "s"⟩, ⟨Role.user, "u1"⟩, ⟨Role.assistant, "a1"⟩,
        ⟨Role.user, "u2"⟩, ⟨Role.user, "u3"⟩] = Except.error "boom" :=
  (summarize_model_failure_propagates "boom" 4 zeroThresholdBudget "P"
    [⟨Role.system, "s"⟩, ⟨Role.user, "u1"⟩, ⟨Role.assistant, "a1"⟩,
      ⟨Role.user, "u2"⟩, ⟨Role.user, "u3"⟩]).1.2 (by decide)

/-- C7 counterexample: on Scenario A the trimmed output is
`[system "sys", assistant "a2", user "u3"]`, but the claim's token
accounting is wrong: after dropping only `u1` and `a1` the estimated
total is 400, not at most 200 (the code in fact also drops `u2`). -/
theorem scenarioA_claim_counterexample :
    ¬ (TrimCompressor.compress scenarioAConfig scenarioAMessages =
        [⟨Role.system, "sys"⟩, ⟨Role.assistant, "a2"⟩, ⟨Role.user, "u3"⟩] ∧
      estimateTotalTokens
        [⟨Role.system, "sys"⟩, ⟨Role.user, "u2"⟩, ⟨Role.assistant, "a2"⟩,
          ⟨Role.user, "u3"⟩] (constEstimator 100) ≤ 200) := by
  intro h
  exact absurd h.2 (by decide)

/-- C7 amended: on Scenario A the Trim strategy returns exactly
`[system "sys", assistant "a2", user "u3"]`; the three non-system
messages `u1`, `a1` and `u2` are all dropped, and the final estimated
total of the output is 300, which still exceeds the 200-token
threshold. -/
theorem scenarioA_trim_result :
    TrimCompressor.compress scenarioAConfig scenarioAMessages =
      [⟨Role.system, "sys"⟩, ⟨Role.assistant, "a2"⟩, ⟨Role.user, "u3"⟩] ∧
    estimateTotalTokens
      (TrimCompressor.compress scenarioAConfig scenarioAMessages)
      (constEstimator 100) = 300 := by
  have hth : computeThresholdTokens
      (TrimCompressor.normalize scenarioAConfig).maxModelTokens
      (TrimCompressor.normalize scenarioAConfig).thresholdPercent = 200 := by
    norm_num [computeThresholdTokens, TrimCompressor.normalize,
      normalizeBudgetConfig, scenarioAConfig]
  have hmain : TrimCompressor.compress scenarioAConfig scenarioAMessages =
      [⟨Role.system, "sys"⟩, ⟨Role.assistant, "a2"⟩, ⟨Role.user, "u3"⟩] := by
    unfold TrimCompressor.compress trimCompress
    rw [hth]
    decide
  refine ⟨hmain, ?_⟩
  rw [hmain]
  decide

/-- C8: budget normalization fills unset fields with the documented
defaults (`maxModelTokens = 8192`, `thresholdPercent = 0.7`, the
`ceil(len/4) + 2` estimator, `minRecentMessages` defaulting to 2 for
Trim and 4 for the spec-modelled Summarize), clamps `minRecentMessages`
to be non-negative, and the derived trigger threshold is
`floor(maxModelTokens * thresholdPercent)` (5734 at the defaults). -/
theorem budget_normalization_spec (cfg : TokenBudgetConfig) (n : Int)
    (hn : cfg.minRecentMessages = some n) :
    TrimCompressor.normalize emptyBudgetConfig =
      ⟨8192, 7 / 10, DEFAULT_ESTIMATOR, 2⟩ ∧
    (SummarizeCompressor.normalize emptyBudgetConfig).minRecentMessages = 4 ∧
    (∀ m : SlimContextMessage,
      ((DEFAULT_ESTIMATOR m : Nat) : Int) =
        ⌈(m.content.length : ℚ) / 4⌉ + 2) ∧
    ((TrimCompressor.normalize cfg).minRecentMessages : Int) = max 0 n ∧
    (∀ (mt : Nat) (tp : ℚ), computeThresholdTokens mt tp = ⌊(mt : ℚ) * tp⌋) ∧
    computeThresholdTokens DEFAULT_MAX_MODEL_TOKENS
      DEFAULT_THRESHOLD_PERCENT = 5734 := by
  refine ⟨rfl, rfl, ?_, ?_, fun mt tp => rfl, ?_⟩
  · intro m
    show (((m.content.length + 3) / 4 + 2 : Nat) : Int) = _
    rw [Nat.cast_add, cast_ceilDiv_four]
    norm_num
  · rw [TrimCompressor.normalize, normalizeBudgetConfig]
    simp only [hn, Option.getD_some]
    exact Int.toNat_of_nonneg (le_max_left 0 n)
  · norm_num [computeThresholdTokens, DEFAULT_MAX_MODEL_TOKENS,
      DEFAULT_THRESHOLD_PERCENT]

/-- Witness for C8 at a configuration carrying a negative
`minRecentMessages = -5`, which is clamped to 0. -/
theorem budget_normalization_spec_witness :
    ((TrimCompressor.normalize ⟨none, none, none, some (-5)⟩).minRecentMessages
      : Int) = max 0 (-5) :=
  (budget_normalization_spec ⟨none, none, none, some (-5)⟩ (-5) rfl).2.2.2.1

/-- C2: whenever the (spec-modelled, token-threshold) Summarize strategy
actually summarizes — gate passes, total over threshold, non-empty
middle — the output is exactly the input's leading system message (if
the first message is a system message), then one synthetic system-role
summary message, then exactly the last `minRecentMessages` input
messages in their original order. -/
theorem summarize_token_structure (cfg : NormalizedBudgetConfig)
    (model : List SlimContextMessage → SlimContextModelResponse)
    (prompt : String) (messages : List SlimContextMessage)
    (hgate : shouldAllowCompression messages = true)
    (hover : computeThresholdTokens cfg.maxModelTokens cfg.thresholdPercent <
      (estimateTotalTokens messages cfg.estimateTokens : Int))
    (hmid : (messages.take (messages.length - cfg.minRecentMessages)).drop
        (if listHasSystemFirst messages then 1 else 0) ≠ []) :
    ∃ summary : SlimContextMessage,
      summary.role = Role.system ∧
      summarizeTokenCompress cfg model prompt messages =
        (if listHasSystemFirst messages then messages.take 1 else []) ++
          summary :: messages.drop (messages.length - cfg.minRecentMessages) ∧
      (messages.drop (messages.length - cfg.minRecentMessages)).length =
        cfg.minRecentMessages := by
  have hK : 0 < messages.length - cfg.minRecentMessages := by
    by_contra h
    push_neg at h
    have hz : messages.length - cfg.minRecentMessages = 0 := by omega
    rw [hz] at hmid
    simp at hmid
  refine ⟨⟨Role.system, summaryContentPrefix ++ (model
    [⟨Role.system, prompt⟩, ⟨Role.user, renderTranscript
      ((messages.take (messages.length - cfg.minRecentMessages)).drop
        (if listHasSystemFirst messages then 1 else 0))⟩]).content⟩,
    rfl, ?_, ?_⟩
  · unfold summarizeTokenCompress
    rw [if_neg (by simp [hgate]), if_neg (not_le.mpr hover),
      if_neg (by simpa [List.isEmpty_iff] using hmid)]
    by_cases hS : listHasSystemFirst messages
    · simp [hS]
    · simp [hS]
  · rw [List.length_drop]
    omega

/-- Witness for C2 reproducing the repository's Scenario C shape:
`[system "sys", user "u0", user "u1", user "u2"]` with threshold 0 and
`minRecentMessages = 2`. -/
theorem summarize_token_structure_witness :
    ∃ summary : SlimContextMessage,
      summary.role = Role.system ∧
      summarizeTokenCompress zeroThresholdBudget (constModel "fake summary")
          "P" [⟨Role.system, "sys"⟩, ⟨Role.user, "u0"⟩, ⟨Role.user, "u1"⟩,
            ⟨Role.user, "u2"⟩] =
        (if listHasSystemFirst [⟨Role.system, "sys"⟩, ⟨Role.user, "u0"⟩,
            ⟨Role.user, "u1"⟩, ⟨Role.user, "u2"⟩] then
          ([⟨Role.system, "sys"⟩, ⟨Role.user, "u0"⟩, ⟨Role.user, "u1"⟩,
            ⟨Role.user, "u2"⟩] : List SlimContextMessage).take 1 else []) ++
          summary :: ([⟨Role.system, "sys"⟩, ⟨Role.user, "u0"⟩,
            ⟨Role.user, "u1"⟩, ⟨Role.user, "u2"⟩] :
              List SlimContextMessage).drop
            (([⟨Role.system, "sys"⟩, ⟨Role.user, "u0"⟩, ⟨Role.user, "u1"⟩,
              ⟨Role.user, "u2"⟩] : List SlimContextMessage).length -
              zeroThresholdBudget.minRecentMessages) ∧
      (([⟨Role.system, "sys"⟩, ⟨Role.user, "u0"⟩, ⟨Role.user, "u1"⟩,
          ⟨Role.user, "u2"⟩] : List SlimContextMessage).drop
        (([⟨Role.system, "sys"⟩, ⟨Role.user, "u0"⟩, ⟨Role.user, "u1"⟩,
            ⟨Role.user, "u2"⟩] : List SlimContextMessage).length -
          zeroThresholdBudget.minRecentMessages)).length =
        zeroThresholdBudget.minRecentMessages :=
  summarize_token_structure zeroThresholdBudget (constModel "fake summary")
    "P" [⟨Role.system, "sys"⟩, ⟨Role.user, "u0"⟩, ⟨Role.user, "u1"⟩,
      ⟨Role.user, "u2"⟩] (by decide)
    (by simp [computeThresholdTokens, zeroThresholdBudget,
      estimateTotalTokens, constEstimator])
    (by decide)

/-- C10: for the `maxMessages`-based SummarizeCompressor of
`strategies/summarize.ts`, whenever the input is strictly longer than
`maxMessages` (with `maxMessages >= 4`) and the model call succeeds, the
output length is `maxMessages - 1`, `maxMessages`, or
`maxMessages + 1`. -/
theorem summarize_maxMessages_length_budget (maxM : Nat)
    (model : List SlimContextMessage → SlimContextModelResponse)
    (prompt : String) (messages : List SlimContextMessage)
    (h4 : 4 ≤ maxM) (hlen : maxM < messages.length) :
    (summarizeCompress maxM model prompt messages).length = maxM - 1 ∨
    (summarizeCompress maxM model prompt messages).length = maxM ∨
    (summarizeCompress maxM model prompt messages).length = maxM + 1 := by
  have hcases := computeKeepStartIndex_cases maxM messages
    (listHasSystemFirst messages) h4 hlen
  obtain ⟨m0, rest, rfl⟩ : ∃ m0 rest, messages = m0 :: rest := by
    cases messages with
    | nil => simp at hlen
    | cons m0 rest => exact ⟨m0, rest, rfl⟩
  unfold summarizeCompress
  rw [if_neg (not_le.mpr hlen)]
  dsimp only
  by_cases hS : listHasSystemFirst (m0 :: rest) = true
  · rw [if_pos hS]
    simp only [hS, if_true] at hcases
    simp only [List.head?_cons]
    simp only [hS]
    simp only [List.length_cons, List.length_drop]
    simp only [List.length_cons] at hcases hlen
    set b := computeKeepStartIndex maxM (m0 :: rest) true with hb
    omega
  · rw [if_neg hS]
    have hSf : listHasSystemFirst (m0 :: rest) = false := by
      cases hb : listHasSystemFirst (m0 :: rest)
      · rfl
      · exact absurd hb hS
    simp only [hSf, Bool.false_eq_true, if_false] at hcases
    simp only [hSf]
    simp only [List.length_cons, List.length_drop]
    simp only [List.length_cons] at hcases hlen
    set b := computeKeepStartIndex maxM (m0 :: rest) false with hb
    omega

/-- Witness for C10 at `maxMessages = 4` and a five-message history. -/
theorem summarize_maxMessages_length_budget_witness :
    (summarizeCompress 4 (constModel "fake summary") "P"
      [⟨Role.system, "s"⟩, ⟨Role.user, "u1"⟩, ⟨Role.assistant, "a1"⟩,
        ⟨Role.user, "u2"⟩, ⟨Role.user, "u3"⟩]).length = 4 - 1 ∨
    (summarizeCompress 4 (constModel "fake summary") "P"
      [⟨Role.system, "s"⟩, ⟨Role.user, "u1"⟩, ⟨Role.assistant, "a1"⟩,
        ⟨Role.user, "u2"⟩, ⟨Role.user, "u3"⟩]).length = 4 ∨
    (summarizeCompress 4 (constModel "fake summary") "P"
      [⟨Role.system, "s"⟩, ⟨Role.user, "u1"⟩, ⟨Role.assistant, "a1"⟩,
        ⟨Role.user, "u2"⟩, ⟨Role.user, "u3"⟩]).length = 4 + 1 :=
  summarize_maxMessages_length_budget 4 (constModel "fake summary") "P"
    [⟨Role.system, "s"⟩, ⟨Role.user, "u1"⟩, ⟨Role.assistant, "a1"⟩,
      ⟨Role.user, "u2"⟩, ⟨Role.user, "u3"⟩] (by decide) (by decide)

/-- C6: the Trim strategy is idempotent — compressing an already
compressed list (with the same configuration) returns it unchanged. -/
theorem trim_idempotent (config : TokenBudgetConfig)
    (messages : List SlimContextMessage) :
    TrimCompressor.compress config (TrimCompressor.compress config messages) =
      TrimCompressor.compress config messages := by
  unfold TrimCompressor.compress
  set cfg := TrimCompressor.normalize config with hcfg
  by_cases hg : shouldAllowCompression messages = true
  case neg =>
    have h : trimCompress cfg messages = messages :=
      trimCompress_of_gate_false cfg messages (by
        cases hb : shouldAllowCompression messages
        · rfl
        · exact absurd hb hg)
    rw [h]
    exact h
  by_cases hle : ((estimateTotalTokens messages cfg.estimateTokens : Nat) :
      Int) ≤ computeThresholdTokens cfg.maxModelTokens cfg.thresholdPercent
  case pos =>
    have h := trimCompress_of_le cfg messages hle
    rw [h]
    exact h
  have hover := not_le.mp hle
  have hK := trimCompress_eq cfg messages hg hover
  set th := computeThresholdTokens cfg.maxModelTokens cfg.thresholdPercent
    with hth
  set pf := messages.length - cfg.minRecentMessages with hpf
  set entries := messages.map fun m => (m, cfg.estimateTokens m) with hentries
  set tot : Int := ((estimateTotalTokens messages cfg.estimateTokens : Nat) :
    Int) with htot
  set after1 := pass1 th pf 0 tot entries with hafter1
  set after2 := pass2 th pf 0 after1.2 after1.1 with hafter2
  rw [hK]
  set K := (after2.1.filter fun e => e.keep).map fun e => e.msg with hKdef
  have hpair : after2.1.map (fun e => (e.msg, e.cnt)) = entries := by
    rw [hafter2, pass2_fst_map, hafter1, pass1_fst_map]
  obtain ⟨hKmsgs, hKcnt⟩ := entries_map_pair after2.1 messages
    cfg.estimateTokens (hpair.trans hentries)
  have hsum : (entries.map fun p => (p.2 : Int)).sum = tot := by
    rw [htot, hentries, List.map_map, estimateTotalTokens]
    push_cast
    rw [List.map_map]
    rfl
  have ht1 : after1.2 = (keptSum after1.1 : Int) := by
    have h := pass1_total th pf entries 0 tot
    rw [← hafter1] at h
    omega
  have ht2 : after2.2 = (keptSum after2.1 : Int) := by
    have h := pass2_total th pf after1.1 0 after1.2
    rw [← hafter2] at h
    omega
  have hKtot : ((estimateTotalTokens K cfg.estimateTokens : Nat) : Int) =
      after2.2 := by
    rw [hKdef, estimateTotalTokens_filter_keep cfg.estimateTokens after2.1
      hKcnt, ht2]
  have hsuffix : after2.1.drop pf =
      (entries.drop pf).map (fun p => ⟨p.1, p.2, true⟩) := by
    have h2 := pass2_drop_suffix th pf after1.1 0 after1.2
    rw [← hafter2] at h2
    simp only [Nat.sub_zero] at h2
    have h1 := pass1_drop_suffix th pf entries 0 tot
    rw [← hafter1] at h1
    simp only [Nat.sub_zero] at h1
    exact h2.trans h1
  by_cases hleK : after2.2 ≤ th
  · exact trimCompress_of_le cfg K (by rw [hKtot]; exact hleK)
  by_cases hpf0 : pf = 0
  · have hall : after2.1 = entries.map (fun p => ⟨p.1, p.2, true⟩) := by
      have h := hsuffix
      rw [hpf0] at h
      simpa using h
    have hKm : K = messages := by
      rw [hKdef, hall, filter_keep_map_true, hentries, List.map_map]
      exact List.map_id messages
    rw [hKm] at hK ⊢
    exact hK
  · have hovK : th < (pass2 th pf 0 after1.2 after1.1).2 := by
      rw [← hafter2]
      exact not_le.mp hleK
    have hsysPre := pass2_over_threshold_systems th pf after1.1 0
      after1.2 hovK
    rw [← hafter2] at hsysPre
    simp only [Nat.sub_zero] at hsysPre
    have hKsplit : K = ((after2.1.take pf).filter
        (fun e => e.keep)).map (fun e => e.msg) ++ messages.drop pf := by
      rw [hKdef]
      conv_lhs => rw [← List.take_append_drop pf after2.1]
      rw [List.filter_append, List.map_append]
      congr 1
      rw [hsuffix, filter_keep_map_true, hentries, ← List.map_drop,
        List.map_map]
      exact List.map_id _
    have hminlt : cfg.minRecentMessages < messages.length := by
      rw [hpf] at hpf0
      omega
    have hlenT : (messages.drop pf).length = cfg.minRecentMessages := by
      rw [List.length_drop, hpf]
      omega
    apply trimCompress_noop_of_allSystemPrefix
    intro m hm
    have hKlen : K.length - cfg.minRecentMessages =
        (((after2.1.take pf).filter (fun e => e.keep)).map
          (fun e => e.msg)).length := by
      rw [hKsplit, List.length_append, hlenT]
      omega
    rw [hKlen, hKsplit, List.take_left] at hm
    obtain ⟨e, he, hem⟩ := List.mem_map.mp hm
    have hmemf := List.mem_filter.mp he
    rw [← hem]
    exact hsysPre e hmemf.1 (by simpa using hmemf.2)

end Slimcontext
